import Mathlib

/-!
Verification of the release-harvesting and provider-version-cache core of the
opentofu registry. The Go sources are embedded shallowly: time instants are
integers (nanoseconds, matching Go time.Duration arithmetic), the paginated
GitHub release feed is a list of pages, and the stateful lambda handler is a
function of an explicit environment recording the outcomes of its external
calls.
-/

namespace Registry

/-- A single asset within a GitHub release (github.go, ReleaseAsset). -/
structure ReleaseAsset where
  id : String
  downloadURL : String
  name : String
deriving Repr, DecidableEq

/-- A release on GitHub (github.go, GHRelease). Time is Int nanoseconds. -/
structure GHRelease where
  id : String
  tagName : String
  releaseAssets : List ReleaseAsset
  isDraft : Bool
  isLatest : Bool
  isPrerelease : Bool
  tarballUrl : String
  createdAt : Int
deriving Repr, DecidableEq

/-- Go constant sincePadding = 2 * time.Minute, in nanoseconds. -/
def sincePadding : Int := 2 * 60 * 1000000000

/-- Inner loop of FindRelease over one page of nodes (github.go lines 99-109):
skip drafts and prereleases, return the first release whose tag is
"v" ++ versionNumber. -/
def pageFind (versionNumber : String) : List GHRelease → Option GHRelease
  | [] => none
  | r :: rest =>
    if r.isDraft || r.isPrerelease then pageFind versionNumber rest
    else if r.tagName == "v" ++ versionNumber then some r
    else pageFind versionNumber rest

/-- FindRelease (github.go lines 82-127): drain pages until a matching
non-draft, non-prerelease release is found; none when pagination ends. -/
def FindRelease (pages : List (List GHRelease)) (versionNumber : String) :
    Option GHRelease :=
  match pages with
  | [] => none
  | page :: rest =>
    match pageFind versionNumber page with
    | some r => some r
    | none => FindRelease rest versionNumber

/-- The compound stop condition of github.go line 157: since is present and
the release was created strictly before since - sincePadding. -/
def tooOld (since : Option Int) (r : GHRelease) : Bool :=
  match since with
  | some s => decide (r.createdAt < s - sincePadding)
  | none => false

/-- A release that is neither a draft nor a prerelease. -/
def installable (r : GHRelease) : Bool :=
  !(r.isDraft || r.isPrerelease)

/-- Inner loop of FetchReleases over one page (github.go lines 149-164):
skip drafts and prereleases; when since is present, break out of the page at
the first release created strictly before since - sincePadding. -/
def collectPage (since : Option Int) : List GHRelease → List GHRelease
  | [] => []
  | r :: rest =>
    if r.isDraft || r.isPrerelease then collectPage since rest
    else if tooOld since r then []
    else r :: collectPage since rest

/-- FetchReleases (github.go lines 131-179), instrumented with the number of
pages fetched. The inner break in the Go source only leaves the per-page
loop; the outer loop keeps following endCursor until the feed reports no
next page, so every page of the feed is fetched. -/
def FetchReleasesRun (since : Option Int) :
    List (List GHRelease) → List GHRelease × Nat
  | [] => ([], 0)
  | page :: rest =>
    (collectPage since page ++ (FetchReleasesRun since rest).1,
      (FetchReleasesRun since rest).2 + 1)

/-- The release list FetchReleases returns. -/
def FetchReleases (pages : List (List GHRelease)) (since : Option Int) :
    List GHRelease :=
  (FetchReleasesRun since pages).1

/-- Go strings.HasSuffix, at the character level: for valid UTF-8 strings a
byte-level suffix that is itself a whole string coincides with a
character-level suffix. -/
def hasSuffix (s suffix : String) : Bool :=
  suffix.data.isSuffixOf s.data

/-- FindAssetBySuffix (github.go lines 213-223): first asset whose name ends
with the suffix, none otherwise. -/
def FindAssetBySuffix (assets : List ReleaseAsset) (suffix : String) :
    Option ReleaseAsset :=
  match assets with
  | [] => none
  | a :: rest =>
    if hasSuffix a.name suffix then some a else FindAssetBySuffix rest suffix

/-- An operating system and architecture pair (platform.Platform). -/
structure Platform where
  os : String
  arch : String
deriving Repr, DecidableEq

/-- An individual GPG public key (types.go, GPGPublicKey). -/
structure GPGPublicKey where
  keyID : String
  asciiArmor : String
deriving Repr, DecidableEq

/-- The GPG public keys used to sign a provider version (types.go,
SigningKeys). -/
structure SigningKeys where
  gpgPublicKeys : List GPGPublicKey
deriving Repr, DecidableEq

/-- Download details of one version for one platform (types.go,
VersionDetails). -/
structure VersionDetails where
  protocols : List String
  os : String
  arch : String
  filename : String
  downloadURL : String
  shaSumsURL : String
  shaSumsSignatureURL : String
  shaSum : String
  signingKeys : SigningKeys
deriving Repr, DecidableEq

/-- Per-platform download detail stored in the cache (types.go,
CacheVersionDownloadDetails). -/
structure CacheVersionDownloadDetails where
  platform : Platform
  filename : String
  downloadURL : String
  shaSumsURL : String
  shaSumsSignatureURL : String
  shaSum : String
deriving Repr, DecidableEq

/-- One cached provider version (types.go, CacheVersion). -/
structure CacheVersion where
  version : String
  downloadDetails : List CacheVersionDownloadDetails
  protocols : List String
deriving Repr, DecidableEq

/-- A single cache item for one provider (types.go, CacheItem). LastUpdated
is Int nanoseconds. -/
structure CacheItem where
  provider : String
  versions : List CacheVersion
  lastUpdated : Int
deriving Repr, DecidableEq

/-- Go constant allowedAge = 1 hour - 5 minutes, in nanoseconds
(types.go line 52). -/
def allowedAge : Int := 1 * (60 * 60 * 1000000000) - 5 * (60 * 1000000000)

/-- CacheItem.IsStale (types.go lines 55-57): time.Since(LastUpdated) is
now - lastUpdated; stale when that strictly exceeds allowedAge. -/
def CacheItem.IsStale (now : Int) (i : CacheItem) : Bool :=
  decide (now - i.lastUpdated > allowedAge)

/-- CacheVersion.GetVersionDetails (types.go lines 103-121): first download
detail whose platform matches the requested os and arch, assembled into
VersionDetails with empty signing keys; none otherwise. -/
def findDownloadDetails (protocols : List String) (os arch : String) :
    List CacheVersionDownloadDetails → Option VersionDetails
  | [] => none
  | d :: rest =>
    if d.platform.os == os && d.platform.arch == arch then
      some ⟨protocols, d.platform.os, d.platform.arch, d.filename,
        d.downloadURL, d.shaSumsURL, d.shaSumsSignatureURL, d.shaSum, ⟨[]⟩⟩
    else findDownloadDetails protocols os arch rest

def CacheVersion.GetVersionDetails (v : CacheVersion) (os arch : String) :
    Option VersionDetails :=
  findDownloadDetails v.protocols os arch v.downloadDetails

/-- CacheItem.GetVersionDetails (types.go lines 69-76): at the first
CacheVersion whose version string matches, return its platform lookup with
found = true; (none, false) when no version matches. -/
def findVersionDetails (version os arch : String) :
    List CacheVersion → Option VersionDetails × Bool
  | [] => (none, false)
  | v :: rest =>
    if v.version == version then (v.GetVersionDetails os arch, true)
    else findVersionDetails version os arch rest

def CacheItem.GetVersionDetails (i : CacheItem) (version os arch : String) :
    Option VersionDetails × Bool :=
  findVersionDetails version os arch i.versions

/-- Responses of the download handler that matter to the claims: a 200 with
a marshalled VersionDetails body, a 404, or a 500. -/
inductive ApiResponse where
  | ok (details : VersionDetails)
  | notFound
  | serverError
deriving Repr, DecidableEq

/-- Outcomes of the external calls the download handler can make, passed in
explicitly. cacheGet is the GetItem call of the ProviderVersionCache;
repoExists the github.RepositoryExists call; upstream the
providers.GetVersion live harvest; keys the providers.KeysForNamespace
lookup. Errors carry no payload. -/
structure DownloadEnv where
  cacheGet : Except Unit (Option CacheItem)
  repoExists : Except Unit Bool
  upstream : Except Unit VersionDetails
  keys : Except Unit (List GPGPublicKey)
deriving Repr

/-- Which external calls beyond the cache read were made while handling a
download request. -/
structure CallTrace where
  checkedRepoExists : Bool
  fetchedUpstream : Bool
deriving Repr, DecidableEq

/-- Modelled from the spec: providercache.VersionListingItem.GetItem and
VersionListingItem.GetVersionDetails are not under src. Per the spec the
cached document is the Version Cache Record of types.go, a Get failure is
treated as a cache miss (no document), and the per-document lookup is the
version-then-platform lookup of CacheItem.GetVersionDetails, collapsed to
its details pointer. -/
def cacheDocument (cacheGet : Except Unit (Option CacheItem)) :
    Option CacheItem :=
  match cacheGet with
  | .error _ => none
  | .ok d => d

/-- processDocumentForProviderDownload (providerDownload.go lines 89-117):
look the requested version, os and arch up in the cached document; on a hit
attach the namespace signing keys (500 when the key lookup fails), on a
miss return 404. -/
def processDocumentForProviderDownload (keys : Except Unit (List GPGPublicKey))
    (doc : CacheItem) (version os arch : String) : ApiResponse :=
  match (doc.GetVersionDetails version os arch).1 with
  | some vd =>
    match keys with
    | .error _ => ApiResponse.serverError
    | .ok ks =>
      ApiResponse.ok ⟨vd.protocols, vd.os, vd.arch, vd.filename,
        vd.downloadURL, vd.shaSumsURL, vd.shaSumsSignatureURL, vd.shaSum,
        ⟨ks⟩⟩
  | none => ApiResponse.notFound

/-- downloadProviderVersion (providerDownload.go lines 48-87): the cache
read error is discarded; with a document present the request is served from
the document alone; otherwise the handler checks repository existence (500
on error, 404 when absent) and then harvests the version live (500 on
error). The trace records which of the two upstream calls were made. -/
def downloadProviderVersion (env : DownloadEnv) (version os arch : String) :
    ApiResponse × CallTrace :=
  match cacheDocument env.cacheGet with
  | some doc =>
    (processDocumentForProviderDownload env.keys doc version os arch,
      ⟨false, false⟩)
  | none =>
    match env.repoExists with
    | .error _ => (ApiResponse.serverError, ⟨true, false⟩)
    | .ok false => (ApiResponse.notFound, ⟨true, false⟩)
    | .ok true =>
      match env.upstream with
      | .error _ => (ApiResponse.serverError, ⟨true, true⟩)
      | .ok details => (ApiResponse.ok details, ⟨true, true⟩)

/-- The predicate FindRelease searches for: an installable release carrying
the conventional tag of the requested version. -/
def matchesVersion (v : String) (r : GHRelease) : Bool :=
  installable r && (r.tagName == "v" ++ v)

/-- A fresh installable release, created at instant 0. -/
def rNew : GHRelease := ⟨"1", "v1.0.0", [], false, false, false, "", 0⟩

/-- An installable release created 200 seconds before rNew. -/
def rOld : GHRelease := ⟨"2", "v0.9.0", [], false, false, false, "", -200000000000⟩

/-- A prerelease tagged v2.0.0. -/
def pre200 : GHRelease := ⟨"3", "v2.0.0", [], false, false, true, "", 30⟩

/-- An installable release tagged v1.5.0. -/
def rel150 : GHRelease := ⟨"4", "v1.5.0", [], false, false, false, "", 20⟩

/-- An installable release tagged v1.0.0. -/
def rel100 : GHRelease := ⟨"5", "v1.0.0", [], false, false, false, "", 10⟩

/-- A cache item whose lastUpdated instant is 0. -/
def itemZero : CacheItem := ⟨"p", [], 0⟩

/-- A cache item listing version 1.2.0 for the darwin/arm64 platform only. -/
def itemA : CacheItem :=
  ⟨"opentofu/foo",
    [⟨"1.2.0", [⟨⟨"darwin", "arm64"⟩, "f", "d", "s", "sig", "sum"⟩], ["5.0"]⟩],
    0⟩

/-- A concrete live-harvest result. -/
def vdDemo : VersionDetails :=
  ⟨["5.0"], "linux", "amd64", "f", "d", "s", "sig", "sum", ⟨[]⟩⟩

/-- An environment whose cache read returns itemA. -/
def envHitA : DownloadEnv :=
  ⟨Except.ok (some itemA), Except.ok true, Except.ok vdDemo, Except.ok []⟩

/-- An environment whose cache read fails. -/
def envErrCache : DownloadEnv :=
  ⟨Except.error (), Except.ok false, Except.ok vdDemo, Except.ok []⟩

end Registry

namespace Registry

theorem pageFind_eq (v : String) (nodes : List GHRelease) :
    pageFind v nodes = nodes.find? (matchesVersion v) := by
  induction nodes with
  | nil => rfl
  | cons r rest ih =>
    by_cases hd : (r.isDraft || r.isPrerelease) = true
    · have hm : matchesVersion v r = false := by
        simp [matchesVersion, installable, hd]
      rw [pageFind, if_pos hd, List.find?_cons, hm, ih]
    · by_cases ht : (r.tagName == "v" ++ v) = true
      · have hm : matchesVersion v r = true := by
          simp only [matchesVersion, installable, Bool.and_eq_true]
          exact ⟨by simp [hd], ht⟩
        rw [pageFind, if_neg hd, if_pos ht, List.find?_cons, hm]
      · have hm : matchesVersion v r = false := by
          simp [matchesVersion, installable, ht]
        rw [pageFind, if_neg hd, if_neg ht, List.find?_cons, hm, ih]

theorem findRelease_eq (v : String) (pages : List (List GHRelease)) :
    FindRelease pages v = pages.flatten.find? (matchesVersion v) := by
  induction pages with
  | nil => rfl
  | cons page rest ih =>
    rw [FindRelease, pageFind_eq, List.flatten_cons, List.find?_append, ih]
    cases page.find? (matchesVersion v) <;> rfl

theorem collectPage_mem (since : Option Int) (r : GHRelease)
    (nodes : List GHRelease) (h : r ∈ collectPage since nodes) :
    r.isDraft = false ∧ r.isPrerelease = false := by
  induction nodes with
  | nil => simp [collectPage] at h
  | cons a rest ih =>
    by_cases hd : (a.isDraft || a.isPrerelease) = true
    · rw [collectPage, if_pos hd] at h
      exact ih h
    · rw [collectPage, if_neg hd] at h
      by_cases hc : tooOld since a = true
      · rw [if_pos hc] at h
        simp at h
      · rw [if_neg hc] at h
        simp only [Bool.or_eq_true, not_or, Bool.not_eq_true] at hd
        rcases List.mem_cons.mp h with rfl | h
        · exact hd
        · exact ih h

theorem fetchReleasesRun_fst (since : Option Int)
    (pages : List (List GHRelease)) :
    (FetchReleasesRun since pages).1 =
      (pages.map (collectPage since)).flatten := by
  induction pages with
  | nil => rfl
  | cons page rest ih => simp [FetchReleasesRun, ih]

theorem fetchReleasesRun_snd (since : Option Int)
    (pages : List (List GHRelease)) :
    (FetchReleasesRun since pages).2 = pages.length := by
  induction pages with
  | nil => rfl
  | cons page rest ih => simp [FetchReleasesRun, ih]

theorem fetchReleases_mem (pages : List (List GHRelease)) (since : Option Int)
    (r : GHRelease) (h : r ∈ FetchReleases pages since) :
    r.isDraft = false ∧ r.isPrerelease = false := by
  rw [FetchReleases, fetchReleasesRun_fst] at h
  rcases List.mem_flatten.mp h with ⟨s, hs, hr⟩
  rcases List.mem_map.mp hs with ⟨page, _, rfl⟩
  exact collectPage_mem since r page hr

theorem collectPage_none (nodes : List GHRelease) :
    collectPage none nodes = nodes.filter installable := by
  induction nodes with
  | nil => rfl
  | cons a rest ih =>
    by_cases hd : (a.isDraft || a.isPrerelease) = true
    · have hi : installable a = false := by simp [installable, hd]
      rw [collectPage, if_pos hd, List.filter_cons, hi, ih]
      simp
    · have hi : installable a = true := by simp [installable, hd]
      have hc : tooOld none a = false := rfl
      rw [collectPage, if_neg hd, hc, List.filter_cons, hi, ih]
      simp

theorem fetchReleasesRun_none (pages : List (List GHRelease)) :
    (FetchReleasesRun none pages).1 = pages.flatten.filter installable := by
  induction pages with
  | nil => rfl
  | cons page rest ih =>
    simp [FetchReleasesRun, collectPage_none, List.filter_append, ih]

theorem findVersionDetails_spec (version os arch : String)
    (l : List CacheVersion)
    (hex : ∃ v ∈ l, v.version = version)
    (hall : ∀ v ∈ l, v.version = version →
      v.GetVersionDetails os arch = none) :
    findVersionDetails version os arch l = (none, true) := by
  induction l with
  | nil => simp at hex
  | cons v rest ih =>
    by_cases hv : (v.version == version) = true
    · rw [findVersionDetails, if_pos hv]
      rw [hall v (List.mem_cons_self v rest) (by simpa using hv)]
    · rw [findVersionDetails, if_neg hv]
      refine ih ?_ ?_
      · rcases hex with ⟨w, hw, hwv⟩
        rcases List.mem_cons.mp hw with rfl | hw
        · exact absurd (by simpa using hwv) hv
        · exact ⟨w, hw, hwv⟩
      · intro w hw hwv
        exact hall w (List.mem_cons_of_mem v hw) hwv

end Registry

namespace Registry

/-- Claim C1: the spec asserts that Collect-since stops fetching further
pages once it meets an installable release created before since minus two
minutes, visiting at most ceil(k / pageSize) + 1 pages where k counts the
releases not older than the cutoff. The code does not: the break at
github.go line 159 leaves only the per-page loop, and the outer loop keeps
following the cursor to the end of the feed. On a two-page feed strictly
ordered by descending creation time where every release is older than the
cutoff (k = 0, so the claimed bound is 1 page), the run accepts nothing
yet still visits 2 pages. -/
theorem FetchReleases_pagination_bound_violated :
    FetchReleases [[rNew], [rOld]] (some 1000000000000) = [] ∧
    (FetchReleasesRun (some 1000000000000) [[rNew], [rOld]]).2 = 2 ∧
    1 < (FetchReleasesRun (some 1000000000000) [[rNew], [rOld]]).2 := by
  decide

/-- Claim C2: every release the Release Filter hands back to its caller -
each element of a FetchReleases result and any release FindRelease finds -
is neither a draft nor a prerelease. -/
theorem Filter_never_returns_draft_or_prerelease :
    ∀ (pages : List (List GHRelease)) (since : Option Int) (v : String)
      (r : GHRelease),
      (r ∈ FetchReleases pages since →
        r.isDraft = false ∧ r.isPrerelease = false) ∧
      (FindRelease pages v = some r →
        r.isDraft = false ∧ r.isPrerelease = false) := by
  intro pages since v r
  refine ⟨fetchReleases_mem pages since r, ?_⟩
  intro h
  rw [findRelease_eq] at h
  have hp := List.find?_some h
  simp [matchesVersion, installable] at hp
  exact ⟨hp.1.1, hp.1.2⟩

theorem Filter_never_returns_draft_or_prerelease_witness :
    (rNew.isDraft = false ∧ rNew.isPrerelease = false) ∧
    (rel150.isDraft = false ∧ rel150.isPrerelease = false) :=
  ⟨(Filter_never_returns_draft_or_prerelease [[rNew]] none "x" rNew).1
      (by decide),
    (Filter_never_returns_draft_or_prerelease [[pre200, rel150, rel100]]
        none "1.5.0" rel150).2 (by decide)⟩

/-- Claim C3: IsStale holds exactly when now minus last_updated strictly
exceeds 55 minutes; a record aged exactly 55 minutes is not stale and one
second past the boundary it is stale. -/
theorem IsStale_iff_age_exceeds_55_minutes :
    ∀ (now : Int) (i : CacheItem),
      (CacheItem.IsStale now i = true ↔
        now - i.lastUpdated > 55 * 60 * 1000000000) ∧
      (now - i.lastUpdated = 55 * 60 * 1000000000 →
        CacheItem.IsStale now i = false) ∧
      (now - i.lastUpdated = 55 * 60 * 1000000000 + 1000000000 →
        CacheItem.IsStale now i = true) := by
  intro now i
  refine ⟨?_, ?_, ?_⟩ <;> simp [CacheItem.IsStale, allowedAge] <;> omega

theorem IsStale_iff_age_exceeds_55_minutes_witness :
    CacheItem.IsStale 3300000000000 itemZero = false ∧
    CacheItem.IsStale 3301000000000 itemZero = true :=
  ⟨(IsStale_iff_age_exceeds_55_minutes 3300000000000 itemZero).2.1
      (by decide),
    (IsStale_iff_age_exceeds_55_minutes 3301000000000 itemZero).2.2
      (by decide)⟩

/-- Claim C4: when the cache read yields a present document that lacks the
exact requested version and platform combination, the handler answers
NotFound and performs neither the repository-existence check nor the
upstream fetch. -/
theorem Cached_document_missing_combination_yields_notFound :
    ∀ (env : DownloadEnv) (doc : CacheItem) (version os arch : String),
      env.cacheGet = Except.ok (some doc) →
      (doc.GetVersionDetails version os arch).1 = none →
      downloadProviderVersion env version os arch =
        (ApiResponse.notFound, ⟨false, false⟩) := by
  intro env doc version os arch h1 h2
  simp [downloadProviderVersion, cacheDocument, h1,
    processDocumentForProviderDownload, h2]

theorem Cached_document_missing_combination_yields_notFound_witness :
    downloadProviderVersion envHitA "1.2.0" "linux" "amd64" =
      (ApiResponse.notFound, ⟨false, false⟩) :=
  Cached_document_missing_combination_yields_notFound envHitA itemA
    "1.2.0" "linux" "amd64" rfl (by decide)

/-- Claim C5: a failing cache read is handled exactly like a cache miss -
the handler proceeds to the repository-existence check and the live
harvest, and the response never reflects the cache-read error itself. -/
theorem Cache_get_failure_treated_as_miss :
    ∀ (env : DownloadEnv) (e : Unit) (version os arch : String),
      env.cacheGet = Except.error e →
      downloadProviderVersion env version os arch =
        downloadProviderVersion
          ⟨Except.ok none, env.repoExists, env.upstream, env.keys⟩
          version os arch ∧
      (downloadProviderVersion env version os arch).2.checkedRepoExists =
        true := by
  intro env e version os arch h
  obtain ⟨cg, re, up, ks⟩ := env
  have h2 : cg = Except.error e := h
  subst h2
  refine ⟨rfl, ?_⟩
  rw [downloadProviderVersion]
  cases re with
  | error e2 => rfl
  | ok b =>
    cases b with
    | false => rfl
    | true => cases up <;> rfl

theorem Cache_get_failure_treated_as_miss_witness :
    (downloadProviderVersion envErrCache "1.2.0" "linux" "amd64" =
      downloadProviderVersion
        ⟨Except.ok none, envErrCache.repoExists, envErrCache.upstream,
          envErrCache.keys⟩ "1.2.0" "linux" "amd64") ∧
    (downloadProviderVersion envErrCache
      "1.2.0" "linux" "amd64").2.checkedRepoExists = true :=
  Cache_get_failure_treated_as_miss envErrCache () "1.2.0" "linux" "amd64"
    rfl

/-- Claim C6: FindRelease returns the first installable release in feed
order whose tag is "v" followed by the requested version, and a not-found
signal once pagination is exhausted without a match. -/
theorem FindRelease_returns_first_matching :
    ∀ (pages : List (List GHRelease)) (v : String),
      FindRelease pages v = pages.flatten.find? (matchesVersion v) ∧
      (FindRelease pages v = none ↔
        ∀ r ∈ pages.flatten, matchesVersion v r = false) := by
  intro pages v
  refine ⟨findRelease_eq v pages, ?_⟩
  rw [findRelease_eq]
  simp [List.find?_eq_none]
  tauto

/-- Claim C7: FindAssetBySuffix returns the first asset in list order whose
display name ends with the suffix, and a not-found signal when no asset
name has that suffix. -/
theorem FindAssetBySuffix_returns_first_suffix_match :
    ∀ (assets : List ReleaseAsset) (suffix : String),
      FindAssetBySuffix assets suffix =
        assets.find? (fun a => hasSuffix a.name suffix) ∧
      (FindAssetBySuffix assets suffix = none ↔
        ∀ a ∈ assets, hasSuffix a.name suffix = false) := by
  intro assets suffix
  have he : FindAssetBySuffix assets suffix =
      assets.find? fun a => hasSuffix a.name suffix := by
    induction assets with
    | nil => rfl
    | cons a rest ih =>
      by_cases hs : hasSuffix a.name suffix = true
      · simp [FindAssetBySuffix, List.find?_cons, hs]
      · simp [FindAssetBySuffix, List.find?_cons, hs, ih]
  refine ⟨he, ?_⟩
  rw [he]
  simp [List.find?_eq_none]

/-- Claim C8: with since absent, FetchReleases accepts exactly the
installable releases of every page in feed order, and pagination runs to
the end of the feed. -/
theorem FetchReleases_no_since_full_resync :
    ∀ pages : List (List GHRelease),
      FetchReleases pages none = pages.flatten.filter installable ∧
      (FetchReleasesRun none pages).2 = pages.length := by
  intro pages
  exact ⟨fetchReleasesRun_none pages, fetchReleasesRun_snd none pages⟩

/-- Claim C9: with a present cached document the handler makes no
repository-existence check, and its response is the same whatever that
check would have returned - a cache hit is served even when the upstream
repository no longer exists. -/
theorem Cache_hit_never_checks_repository :
    ∀ (doc : CacheItem) (re re2 : Except Unit Bool)
      (up : Except Unit VersionDetails)
      (ks : Except Unit (List GPGPublicKey)) (version os arch : String),
      (downloadProviderVersion ⟨Except.ok (some doc), re, up, ks⟩
        version os arch).2.checkedRepoExists = false ∧
      downloadProviderVersion ⟨Except.ok (some doc), re, up, ks⟩
          version os arch =
        downloadProviderVersion ⟨Except.ok (some doc), re2, up, ks⟩
          version os arch := by
  intro doc re re2 up ks version os arch
  exact ⟨rfl, rfl⟩

/-- Claim C10: when some cached version matches the requested version
string but none of the matching versions carries a download detail for the
requested platform, CacheItem.GetVersionDetails returns a none details
pointer together with found = true, so callers must nil-check the details
even when found is true. -/
theorem GetVersionDetails_found_true_with_nil_details :
    ∀ (i : CacheItem) (version os arch : String),
      (∃ v ∈ i.versions, v.version = version) →
      (∀ v ∈ i.versions, v.version = version →
        v.GetVersionDetails os arch = none) →
      i.GetVersionDetails version os arch = (none, true) := by
  intro i version os arch hex hall
  exact findVersionDetails_spec version os arch i.versions hex hall

theorem GetVersionDetails_found_true_with_nil_details_witness :
    itemA.GetVersionDetails "1.2.0" "linux" "amd64" = (none, true) :=
  GetVersionDetails_found_true_with_nil_details itemA "1.2.0" "linux"
    "amd64" (by decide) (by decide)

end Registry
